import Mathlib

/-!
# Verification of the orbit data-orchestration core against its specification

This file gives a shallow embedding of the parts of the orbit repository that
the specification's claims are about, and proves (or refutes) each claim.

* `buildTransform` / `buildQuery` — the request builders
  (`src/packages/@orbit/data/src/transform.ts` for transforms; the query
  builder is modelled from the spec, only its tests are in the repository).
* The `Source` kernel pipeline (`transformed`, `query` with `beforeQuery`
  listeners and `hints`) — modelled from the spec; only its tests are in the
  repository.
* The record-cache query engine (`findRecord`, `findRecords`,
  `findRelatedRecords`, sorting) — modelled from the spec; only its tests are
  in the repository.
* The JSON:API fetch timeout behaviour — modelled from the spec.
* `RestStore._transform` (`src/src/orbit/orbit/sources/rest_store.js`).
-/

namespace Orbit

/-! ## Record data model -/

/-- An attribute value: JS primitives used by records in this repository. -/
inductive Value where
  | vBool (b : Bool)
  | vInt (n : Int)
  | vStr (s : String)
  deriving DecidableEq, Repr

/-- Record identity `{ type, id }`. -/
structure RecordIdentity where
  type : String
  id : String
  deriving DecidableEq, Repr

/-- Relationship data: a single identity (to-one, possibly null) or an
ordered sequence of identities (to-many). -/
inductive RelData where
  | one (r : Option RecordIdentity)
  | many (rs : List RecordIdentity)
  deriving DecidableEq, Repr

/-- A record: identity plus attributes and relationships (both modelled as
association lists, matching the JS objects). -/
structure Record where
  type : String
  id : String
  attributes : List (String × Value) := []
  relationships : List (String × RelData) := []
  deriving DecidableEq, Repr

/-- Identity of a record. -/
def Record.identity (r : Record) : RecordIdentity :=
  ⟨r.type, r.id⟩

/-- Attribute lookup (`record.attributes[attr]`, `undefined` = `none`). -/
def Record.getAttr (r : Record) (attr : String) : Option Value :=
  r.attributes.lookup attr

/-! ## buildTransform (src/packages/@orbit/data/src/transform.ts) -/

/-- Request options.  The claims only need them as opaque comparable data. -/
structure RequestOptions where
  entries : List (String × String) := []
  deriving DecidableEq, Repr

/-- An operation `{ op, … }`; the builder claims only move operations around,
so the payload is kept as the raw tagged value. -/
structure Operation where
  op : String
  deriving DecidableEq, Repr

/-- An `OperationTerm` carries a `toOperation()` result. -/
structure OperationTerm where
  operation : Operation
  deriving DecidableEq, Repr

/-- `OperationTerm#toOperation`. -/
def OperationTerm.toOperation (t : OperationTerm) : Operation :=
  t.operation

/-- A `Transform { id, operations, options? }`. -/
structure Transform where
  id : String
  operations : List Operation
  options : Option RequestOptions := none
  deriving DecidableEq, Repr

/-- An element of the `O | OperationTerm<O>` union accepted by
`buildTransform` inputs. -/
inductive OpOrTerm where
  | op (o : Operation)
  | term (t : OperationTerm)
  deriving DecidableEq, Repr

/-- `toOperation` from transform.ts: duck-typed dispatch on
`typeof x.toOperation === 'function'`. -/
def toOperation : OpOrTerm → Operation
  | .op o => o
  | .term t => t.toOperation

/-- The non-function part of the `TransformOrOperations` union: a fully
formed transform, a single operation/term, or an array of operations/terms.
`isTransform` tests `Array.isArray(x.operations)`, which in the typed union
distinguishes exactly the `transform` constructor. -/
inductive PlainTransformInput where
  | transform (t : Transform)
  | single (x : OpOrTerm)
  | array (xs : List OpOrTerm)
  deriving DecidableEq, Repr

/-- The transform builder (`src/unnamed/part_000`); its term-producing
methods are irrelevant to the builder-function dispatch, which only passes
the builder through. -/
structure TransformBuilder where
  deriving DecidableEq, Repr

/-- Full `TransformOrOperations` union, including the builder function;
the function returns operations or terms (never another function or a
transform, per its TypeScript type). -/
inductive TransformOrOperations where
  | plain (p : PlainTransformInput)
  | builderFn (f : TransformBuilder → PlainTransformInput)

/-- JS truthiness of an optional string (`undefined` and `''` are falsy). -/
def strTruthy : Option String → Bool
  | none => false
  | some s => s ≠ ""

/-- `transformId || Orbit.uuid()`: the replacement id when truthy, else the
freshly generated UUID.  UUID generation is modelled by passing the next
fresh id explicitly. -/
def idOrFresh (transformId : Option String) (freshId : String) : String :=
  match transformId with
  | some s => if s ≠ "" then s else freshId
  | none => freshId

/-- `buildTransform` on a non-function input, lines 56-81 of transform.ts.
`transformOptions || transform.options` is modelled by `Option.orElse`
(a present `RequestOptions` object is always truthy in JS). -/
def buildTransformPlain (freshId : String) (p : PlainTransformInput)
    (transformOptions : Option RequestOptions) (transformId : Option String) :
    Transform :=
  match p with
  | .transform t =>
    if t.id ≠ "" ∧ transformOptions = none ∧ strTruthy transformId = false then
      t
    else
      { operations := t.operations
        options := transformOptions.orElse (fun _ => t.options)
        id := idOrFresh transformId freshId }
  | .single x =>
    { operations := [toOperation x]
      options := transformOptions
      id := idOrFresh transformId freshId }
  | .array xs =>
    { operations := xs.map toOperation
      options := transformOptions
      id := idOrFresh transformId freshId }

/-- `buildTransform` (transform.ts lines 40-82): a builder function is
invoked with the builder and its (non-function) result is rebuilt with the
same `transformOptions` and `transformId`. -/
def buildTransform (freshId : String) (x : TransformOrOperations)
    (transformOptions : Option RequestOptions) (transformId : Option String) :
    Transform :=
  match x with
  | .plain p => buildTransformPlain freshId p transformOptions transformId
  | .builderFn f =>
    buildTransformPlain freshId (f {}) transformOptions transformId

/-! ## buildQuery (modelled) -/

/-- A query expression; the builder claims only move expressions around. -/
structure QueryExpression where
  op : String
  deriving DecidableEq, Repr

/-- A `QueryTerm` carries a `toQueryExpression()` result. -/
structure QueryTerm where
  expression : QueryExpression
  deriving DecidableEq, Repr

/-- A `Query { id, expressions, options? }`. -/
structure Query where
  id : String
  expressions : List QueryExpression
  options : Option RequestOptions := none
  deriving DecidableEq, Repr

/-- An element of the `Expression | QueryTerm` union. -/
inductive ExprOrTerm where
  | expr (e : QueryExpression)
  | term (t : QueryTerm)
  deriving DecidableEq, Repr

/-- `toQueryExpression` dispatch. -/
def toQueryExpression : ExprOrTerm → QueryExpression
  | .expr e => e
  | .term t => t.expression

/-- Non-function part of the `QueryOrExpressions` union. -/
inductive PlainQueryInput where
  | query (q : Query)
  | single (x : ExprOrTerm)
  | array (xs : List ExprOrTerm)
  deriving DecidableEq, Repr

/-- Modelled from the spec: `buildQuery(termsOrFn, options?, id?, builder?)`
"accepts: an expression, a term, an array of either, a fully-formed query
(returned unchanged if id present and no overrides), or a function that
receives the builder. Returns a canonical `Query`. Analogous contract for
`buildTransform`."  The query builder source is not in the repository
snapshot; this mirrors `buildTransform` as the spec states. -/
def buildQueryPlain (freshId : String) (p : PlainQueryInput)
    (queryOptions : Option RequestOptions) (queryId : Option String) :
    Query :=
  match p with
  | .query q =>
    if q.id ≠ "" ∧ queryOptions = none ∧ strTruthy queryId = false then
      q
    else
      { expressions := q.expressions
        options := queryOptions.orElse (fun _ => q.options)
        id := idOrFresh queryId freshId }
  | .single x =>
    { expressions := [toQueryExpression x]
      options := queryOptions
      id := idOrFresh queryId freshId }
  | .array xs =>
    { expressions := xs.map toQueryExpression
      options := queryOptions
      id := idOrFresh queryId freshId }

/-! ## RestStore (src/src/orbit/orbit/sources/rest_store.js) -/

/-- A record held in `RestStore._localCache`: the local id field
(`record[this.idField]`), the remote id field (`record[this.remoteIdField]`),
the `deleted` flag and the version counter maintained by
`Orbit.incrementVersion` (modelled as a natural number, absent = 0). -/
structure RestRecord where
  localId : Option String := none
  remoteId : Option String := none
  deleted : Bool := false
  version : Nat := 0
  deriving DecidableEq, Repr

/-- `_localCache`: `type → id → record`, as an association list keyed by
`(type, id)`. -/
abbrev RestCache := List ((String × String) × RestRecord)

/-- `_localCache[type][id]`. -/
def rcGet (c : RestCache) (ty id : String) : Option RestRecord :=
  (c.find? (fun e => e.1.1 == ty && e.1.2 == id)).map (·.2)

/-- `_localCache[type][id] = record` (overwrite). -/
def rcSet (c : RestCache) (ty id : String) (record : RestRecord) : RestCache :=
  ((ty, id), record) :: c.filter (fun e => !(e.1.1 == ty && e.1.2 == id))

/-- The RestStore state: local cache plus the `(type, remoteId) → localId`
map `_remoteIdMap`. -/
structure RestStoreState where
  localCache : RestCache := []
  remoteIdMap : List ((String × String) × String) := []
  deriving DecidableEq, Repr

/-- JS truthiness of an optional string field. -/
def strOptTruthy : Option String → Bool
  | none => false
  | some s => s ≠ ""

/-- `RestStore.retrieve(type, id)` for a string id. -/
def rsRetrieve (s : RestStoreState) (ty id : String) : Option RestRecord :=
  rcGet s.localCache ty id

/-- `RestStore.retrieve(type, data)` for an object argument: the id is read
from the object's id field. -/
def rsRetrieveObj (s : RestStoreState) (ty : String) (data : RestRecord) :
    Option RestRecord :=
  data.localId.bind (rsRetrieve s ty)

/-- `RestStore._lookupRemoteId(type, data)`: the record's own remote id if
truthy, else the remote id of the cached record with the same local id. -/
def rsLookupRemoteId (s : RestStoreState) (ty : String) (data : RestRecord) :
    Option String :=
  if strOptTruthy data.remoteId then data.remoteId
  else (rsRetrieveObj s ty data).bind (·.remoteId)

/-- `RestStore._addToCache(type, record, id)`.  A missing id is replaced by a
generated one (`Orbit.generateId()`, modelled by the explicit `freshId`).
The source's deleted-record branch mutates the previously cached object just
before overwriting its slot, so it does not affect the resulting cache.
Returns the updated state and the cached record. -/
def rsAddToCache (s : RestStoreState) (ty : String) (record : RestRecord)
    (id? : Option String) (freshId : String) : RestStoreState × RestRecord :=
  let i := id?.getD freshId
  let r := { record with localId := some i, version := record.version + 1 }
  let cache := rcSet s.localCache ty i r
  let idMap :=
    match r.remoteId with
    | some rid =>
      if rid ≠ "" then ((ty, rid), i) :: s.remoteIdMap else s.remoteIdMap
    | none => s.remoteIdMap
  (⟨cache, idMap⟩, r)

/-- Errors thrown by `RestStore._transform`. -/
inductive RestError where
  | notFound (ty : String)
  | alreadyExists (ty : String)
  deriving DecidableEq, Repr

/-- `RestStore._transform(action = 'remove', type, data)`, success path of
the DELETE request (lines 77-92 of rest_store.js): after the server confirms
deletion, the record (or a fresh placeholder when none was cached) stays in
the cache with `deleted = true` and an incremented version; it is returned.
The HTTP DELETE itself is external and assumed successful. -/
def rsTransformRemove (s : RestStoreState) (ty : String) (data : RestRecord)
    (freshId : String) : Except RestError (RestStoreState × RestRecord) :=
  if strOptTruthy (rsLookupRemoteId s ty data) = false then
    .error (.notFound ty)
  else
    match data.localId with
    | some i =>
      match rsRetrieve s ty i with
      | some r0 =>
        -- record.deleted = true; Orbit.incrementVersion(record): mutates the
        -- cached object in place, so the cache sees the flag
        let r1 := { r0 with deleted := true, version := r0.version + 1 }
        .ok (⟨rcSet s.localCache ty i r1, s.remoteIdMap⟩, r1)
      | none =>
        let (s1, r1) := rsAddToCache s ty {} (some i) freshId
        let r2 := { r1 with deleted := true, version := r1.version + 1 }
        .ok (⟨rcSet s1.localCache ty i r2, s1.remoteIdMap⟩, r2)
    | none =>
      -- retrieve(type, undefined) yields undefined: placeholder path with a
      -- generated id
      let (s1, r1) := rsAddToCache s ty {} none freshId
      let r2 := { r1 with deleted := true, version := r1.version + 1 }
      .ok (⟨rcSet s1.localCache ty freshId r2, s1.remoteIdMap⟩, r2)

/-! ## Remote source adapter: fetch timeout (modelled) -/

/-- Errors surfaced by the remote adapter. -/
inductive FetchError where
  | networkError (description : String)
  deriving DecidableEq, Repr

/-- How the transport behaves for one request: response headers arrive after
a delay, or the fetch rejects with a reason. -/
inductive NetworkOutcome (R : Type) where
  | respondsAfter (delayMs : Nat) (resp : R)
  | rejects (reason : String)
  deriving DecidableEq, Repr

/-- The literal timeout description string. -/
def timeoutDescription (timeoutMs : Nat) : String :=
  "No fetch response within " ++ toString timeoutMs ++ "ms."

/-- Modelled from the spec: "if `timeout` elapses before response headers,
abort the request and raise `NetworkError` with the literal description
`"No fetch response within <timeout>ms."`. A rejected fetch maps to
`NetworkError` carrying the rejection reason in `description`."  The JSON:API
request processor is not in the repository snapshot. -/
def fetchWithTimeout {R : Type} (timeoutMs : Option Nat) :
    NetworkOutcome R → Except FetchError R
  | .rejects reason => .error (.networkError reason)
  | .respondsAfter d resp =>
    match timeoutMs with
    | some t => if t < d then .error (.networkError (timeoutDescription t)) else .ok resp
    | none => .ok resp

/-! ## Source kernel: `transformed` (modelled) -/

/-- Observable events around `Source#transformed`: a `transform` listener
observing a transform (listeners are numbered), and the resolution of the
promise returned to the caller. -/
inductive SourceEvent where
  | transformEmit (listener : Nat) (tid : String)
  | resolve
  deriving DecidableEq, Repr

/-- Modelled from the spec: the Source kernel source is not in the
repository snapshot (only its tests).  "On success, append applied
transforms to the log (for mutating paths), emit `transform` per applied
transform (synchronously, BEFORE the outer promise resolves)"; the log
"is the authority for 'have we already applied this?'", so transforms whose
id is already logged are skipped.  `transformedRun n log ts` processes the
transforms in order against a source with `n` registered `transform`
listeners and returns the ordered event trace (ending with the promise
resolution) together with the resulting transform log. -/
def transformedRun (numListeners : Nat) (log : List String) :
    List Transform → List SourceEvent × List String
  | [] => ([SourceEvent.resolve], log)
  | t :: ts =>
    if t.id ∈ log then
      transformedRun numListeners log ts
    else
      ((List.range numListeners).map (fun i => SourceEvent.transformEmit i t.id)
          ++ (transformedRun numListeners (log ++ [t.id]) ts).1,
        (transformedRun numListeners (log ++ [t.id]) ts).2)

/-! ## Source kernel: the `query` pipeline (modelled) -/

/-- A response `hints` object; `beforeX` listeners may pre-supply `data`. -/
structure Hints (D : Type) where
  data : Option D := none
  deriving DecidableEq, Repr

/-- Observable events in the `query` pipeline. -/
inductive QueryEvent where
  | beforeQueryEmit (listener : Nat)
  | performQuery
  | querySuccess
  | queryFail
  deriving DecidableEq, Repr

/-- Run the `beforeQuery` listeners serially from the given hints value.
Each listener observes the hints as mutated so far and either resolves
(possibly mutating the hints further) or rejects; the first rejection
aborts the run. -/
def runBefore {E H : Type} : List (H → Except E H) → H → Except E H
  | [], h => .ok h
  | l :: rest, h =>
    match l h with
    | .error e => .error e
    | .ok h2 => runBefore rest h2

/-- The hints values observed by the listeners that were actually invoked
during the serial run (the run stops at the first rejection). -/
def listenerInputsFrom {E H : Type} : List (H → Except E H) → H → List H
  | [], _ => []
  | l :: rest, h =>
    match l h with
    | .error _ => [h]
    | .ok h2 => h :: listenerInputsFrom rest h2

/-- The observable outcome of one `source.query()` invocation. -/
structure QueryRun (E D H : Type) where
  events : List QueryEvent
  listenerInputs : List H
  performInput : Option H
  result : Except E D

/-- Modelled from the spec: the Source kernel source is not in the
repository snapshot (only its tests).  "Emit `beforeX(req, hints)`. All
registered listeners are invoked serially; any returned deferred completion
is awaited. A shared mutable `hints` object is passed to every listener and
forwarded to `_X`. If ANY listener fails, pipeline aborts with `XFail`."
The shared mutable hints object is modelled by threading the hints value:
each listener receives the value left by its predecessor, starting from the
initially empty object, and `_query` receives the final value. -/
def sourceQuery {E D : Type}
    (listeners : List (Hints D → Except E (Hints D)))
    (perform : Hints D → Except E D) : QueryRun E D (Hints D) :=
  match runBefore listeners {} with
  | .error e =>
    { events := (List.range (listenerInputsFrom listeners {}).length).map
          .beforeQueryEmit ++ [.queryFail]
      listenerInputs := listenerInputsFrom listeners {}
      performInput := none
      result := .error e }
  | .ok h =>
    match perform h with
    | .error e =>
      { events := (List.range (listenerInputsFrom listeners {}).length).map
            .beforeQueryEmit ++ [.performQuery, .queryFail]
        listenerInputs := listenerInputsFrom listeners {}
        performInput := some h
        result := .error e }
    | .ok d =>
      { events := (List.range (listenerInputsFrom listeners {}).length).map
            .beforeQueryEmit ++ [.performQuery, .querySuccess]
        listenerInputs := listenerInputsFrom listeners {}
        performInput := some h
        result := .ok d }

/-! ## Record cache query engine (modelled) -/

/-- Errors raised by cache query evaluation. -/
inductive CacheError where
  | recordNotFound (ty id : String)
  deriving DecidableEq, Repr

/-- The cache's record store for one source, in insertion order.  The spec
keys it `records[type][id]`; identities are unique, so an insertion-ordered
list indexed by identity is the same store with the enumeration order made
explicit. -/
abbrev Cache := List Record

/-- Lookup by identity. -/
def lookupRecord (c : Cache) (i : RecordIdentity) : Option Record :=
  c.find? (fun r => r.type == i.type && r.id == i.id)

/-- Modelled from the spec: "`findRecord(id)`: lookup by identity; if
missing, raise `RecordNotFound`."  The cache query engine is not in the
repository snapshot (only its tests). -/
def findRecord (c : Cache) (i : RecordIdentity) : Except CacheError Record :=
  match lookupRecord c i with
  | some r => .ok r
  | none => .error (.recordNotFound i.type i.id)

/-- Modelled from the spec: "A list of identities returns only those that
exist (silent skip of missing)." -/
def findRecordsByIdentities (c : Cache) (ids : List RecordIdentity) :
    List Record :=
  ids.filterMap (lookupRecord c)

/-- The link stored for a relationship name (`record.relationships[rel].data`,
absent = `none`). -/
def Record.relData (r : Record) (rel : String) : Option RelData :=
  r.relationships.lookup rel

/-- Modelled from the spec: "`findRelatedRecords(record, rel)`: same rules
[record missing raises `RecordNotFound`], returning `[]` when no link is
declared"; resolved identities that are gone are skipped like a list of
identities.  A to-one link read through the to-many path is treated as no
array link (`[]`). -/
def findRelatedRecords (c : Cache) (x : RecordIdentity) (rel : String) :
    Except CacheError (List Record) :=
  match lookupRecord c x with
  | none => .error (.recordNotFound x.type x.id)
  | some r =>
    match r.relData rel with
    | none => .ok []
    | some (.many ids) => .ok (ids.filterMap (lookupRecord c))
    | some (.one _) => .ok []

/-! ## Record cache sorting (modelled) -/

/-- Sort direction (`asc` is the default in the spec). -/
inductive SortOrder where
  | asc
  | desc
  deriving DecidableEq, Repr

/-- A sort specifier `{ attribute, order }` (`attribute` is a Lean keyword,
so the field is named `attr`). -/
structure SortSpecifier where
  attr : String
  order : SortOrder
  deriving DecidableEq, Repr

/-- Three-way comparison induced by a linear order. -/
def cmpo {α : Type} [LinearOrder α] (x y : α) : Ordering :=
  if x < y then .lt else if x = y then .eq else .gt

/-- Type tag of a value, ordering values of different primitive kinds. -/
def Value.rank : Value → Nat
  | .vBool _ => 0
  | .vInt _ => 1
  | .vStr _ => 2

/-- Total comparison of attribute values: same kinds compare by their own
order, different kinds by kind tag. -/
def cmpVal : Value → Value → Ordering
  | .vBool x, .vBool y => cmpo x y
  | .vInt x, .vInt y => cmpo x y
  | .vStr x, .vStr y => cmpo x y
  | a, b => cmpo a.rank b.rank

/-- Comparison of two optional attribute values under a direction: a missing
value sorts after a present one regardless of direction; a descending key
compares the values in reverse. -/
def keyCmpVal (o : SortOrder) : Option Value → Option Value → Ordering
  | some va, some vb =>
    match o with
    | .asc => cmpVal va vb
    | .desc => cmpVal vb va
  | some _, none => .lt
  | none, some _ => .gt
  | none, none => .eq

/-- One sort key applied to two records.  Modelled from the spec: "For each
key: records lacking the attribute sort AFTER those that have it, regardless
of direction." -/
def keyCmp (s : SortSpecifier) (a b : Record) : Ordering :=
  keyCmpVal s.order (a.getAttr s.attr) (b.getAttr s.attr)

/-- Lexicographic multi-key record comparison ("Ties break by later
keys"). -/
def cmpRecords : List SortSpecifier → Record → Record → Ordering
  | [], _, _ => .eq
  | s :: rest, a, b =>
    match keyCmp s a b with
    | .eq => cmpRecords rest a b
    | o => o

/-- The sort relation on position-tagged records: compare by the sort keys,
breaking full ties by input position ("then by insertion order"). -/
def recordLe (specs : List SortSpecifier) (x y : Nat × Record) : Prop :=
  cmpRecords specs x.2 y.2 = .lt ∨
    (cmpRecords specs x.2 y.2 = .eq ∧ x.1 ≤ y.1)

instance (specs : List SortSpecifier) : DecidableRel (recordLe specs) :=
  fun x y => by unfold recordLe; infer_instance

/-- Modelled from the spec: "**Sort semantics**: lexicographic multi-key.
For each key: records lacking the attribute sort AFTER those that have it,
regardless of direction. Ties break by later keys, then by insertion
order."  Records are tagged with their insertion position, sorted by the
key comparison with the position as final tiebreaker, and untagged. -/
def sortRecords (specs : List SortSpecifier) (rs : List Record) :
    List Record :=
  ((rs.enum).insertionSort (recordLe specs)).map Prod.snd

/-! ## Concrete fixtures used by witnesses -/

/-- A RestStore state with one cached planet record, for the C10 witness. -/
def restStoreBefore : RestStoreState :=
  ⟨[(("planet", "p1"), { localId := some "p1", remoteId := some "12345" })], []⟩

/-- The same record after a successful remove: still cached, deleted. -/
def restDeletedRecord : RestRecord :=
  { localId := some "p1", remoteId := some "12345",
    deleted := true, version := 1 }

/-- The RestStore state after the remove, for the C10 witness. -/
def restStoreAfter : RestStoreState :=
  ⟨[(("planet", "p1"), restDeletedRecord)], []⟩

/-- A concrete applied transform for the C1 witness. -/
def sampleTransform : Transform :=
  { id := "t1", operations := [{ op := "addRecord" }] }

/-- Jupiter with a moons link, as in the record-source tests. -/
def jupiterRec : Record :=
  { type := "planet", id := "jupiter",
    attributes := [("name", .vStr "Jupiter")],
    relationships := [("moons", .many [⟨"moon", "callisto"⟩])] }

/-- Jupiter without any relationships (no moons link). -/
def jupiterBare : Record :=
  { type := "planet", id := "jupiter",
    attributes := [("name", .vStr "Jupiter")] }

/-- Callisto, Jupiter's moon. -/
def callistoRec : Record :=
  { type := "moon", id := "callisto",
    attributes := [("name", .vStr "Callisto")] }

/-- Venus, as in the record-source tests. -/
def venusRec : Record :=
  { type := "planet", id := "venus",
    attributes := [("name", .vStr "Venus")] }

/-- A populated cache for the C3 witness. -/
def sampleCache : Cache :=
  [jupiterRec, callistoRec, venusRec]

/-- Jupiter without the sort attribute, for the sort-with-missing-attribute
scenario of the tests. -/
def jupiterNoSeq : Record :=
  { type := "planet", id := "jupiter" }

/-- Earth with `sequence = 3`, as in the spec's compound-filter scenario. -/
def earthSeq : Record :=
  { type := "planet", id := "earth",
    attributes := [("sequence", .vInt 3)] }

/-- Venus with `sequence = 2`. -/
def venusSeq : Record :=
  { type := "planet", id := "venus",
    attributes := [("sequence", .vInt 2)] }

/-- Mars with `sequence = 2` as well: a full tie with venus. -/
def marsSeq : Record :=
  { type := "planet", id := "mars",
    attributes := [("sequence", .vInt 2)] }

/-- Mercury with `sequence = 1`. -/
def mercurySeq : Record :=
  { type := "planet", id := "mercury",
    attributes := [("sequence", .vInt 1)] }

/-- The planets in insertion order for the sort scenario: jupiter lacks the
`sequence` attribute; venus and mars tie on it. -/
def sortPlanets : List Record :=
  [jupiterNoSeq, earthSeq, venusSeq, marsSeq, mercurySeq]

end Orbit

namespace Orbit

/-! ## Claims C8 and C9: builder behaviour -/

/-- **C8**: `buildTransform` (and analogously `buildQuery`) returns its input
unchanged exactly when given a fully-formed transform/query that has an id,
with no replacement options and no replacement id.  In all other cases a new
object is assembled: when any override is supplied the result takes
`operations` from the input, `options := transformOptions || input.options`
and `id := transformId || uuid` (so a truthy replacement id different from
the input's means the input is not returned); when the input lacks an id the
fresh UUID is used; and single/array operation, term and expression inputs
always yield a newly assembled object. -/
theorem c8_build_returns_input_unchanged
    (freshId : String) (t : Transform) (q : Query)
    (tOpts : Option RequestOptions) (tId : Option String)
    (x : OpOrTerm) (xs : List OpOrTerm)
    (e : ExprOrTerm) (es : List ExprOrTerm)
    (ht : t.id ≠ "") (hq : q.id ≠ "") :
    buildTransform freshId (.plain (.transform t)) none none = t ∧
    buildQueryPlain freshId (.query q) none none = q ∧
    (¬ (tOpts = none ∧ strTruthy tId = false) →
      buildTransform freshId (.plain (.transform t)) tOpts tId
        = { operations := t.operations
            options := tOpts.orElse (fun _ => t.options)
            id := idOrFresh tId freshId } ∧
      buildQueryPlain freshId (.query q) tOpts tId
        = { expressions := q.expressions
            options := tOpts.orElse (fun _ => q.options)
            id := idOrFresh tId freshId }) ∧
    (∀ tid, tid ≠ "" → tid ≠ t.id →
      buildTransform freshId (.plain (.transform t)) none (some tid) ≠ t) ∧
    (∀ tid, tid ≠ "" → tid ≠ q.id →
      buildQueryPlain freshId (.query q) none (some tid) ≠ q) ∧
    buildTransform freshId (.plain (.transform { t with id := "" })) none none
      = { operations := t.operations, options := t.options, id := freshId } ∧
    buildQueryPlain freshId (.query { q with id := "" }) none none
      = { expressions := q.expressions, options := q.options, id := freshId } ∧
    buildTransform freshId (.plain (.single x)) tOpts tId
      = { operations := [toOperation x], options := tOpts
          id := idOrFresh tId freshId } ∧
    buildTransform freshId (.plain (.array xs)) tOpts tId
      = { operations := xs.map toOperation, options := tOpts
          id := idOrFresh tId freshId } ∧
    buildQueryPlain freshId (.single e) tOpts tId
      = { expressions := [toQueryExpression e], options := tOpts
          id := idOrFresh tId freshId } ∧
    buildQueryPlain freshId (.array es) tOpts tId
      = { expressions := es.map toQueryExpression, options := tOpts
          id := idOrFresh tId freshId } := by
  refine ⟨?_, ?_, ?_, ?_, ?_, ?_, ?_, rfl, rfl, rfl, rfl⟩
  · simp [buildTransform, buildTransformPlain, strTruthy, ht]
  · simp [buildQueryPlain, strTruthy, hq]
  · intro hover
    constructor
    · show buildTransformPlain freshId (.transform t) tOpts tId = _
      simp only [buildTransformPlain]
      rw [if_neg (fun hcond => hover ⟨hcond.2.1, hcond.2.2⟩)]
    · simp only [buildQueryPlain]
      rw [if_neg (fun hcond => hover ⟨hcond.2.1, hcond.2.2⟩)]
  · intro tid htid hne h
    apply hne
    have hid := congrArg Transform.id h
    simp [buildTransform, buildTransformPlain, strTruthy, htid,
      idOrFresh] at hid
    exact hid
  · intro tid htid hne h
    apply hne
    have hid := congrArg Query.id h
    simp [buildQueryPlain, strTruthy, htid, idOrFresh] at hid
    exact hid
  · simp [buildTransform, buildTransformPlain, strTruthy, idOrFresh,
      Option.orElse]
  · simp [buildQueryPlain, strTruthy, idOrFresh, Option.orElse]

/-- Witness for C8 at a concrete transform and query: unchanged return with
no overrides, and a newly assembled object carrying the replacement id
(distinct from the input) when a replacement id is passed. -/
theorem c8_build_returns_input_unchanged_witness :
    buildTransform "fresh-uuid"
        (.plain (.transform { id := "t1", operations := [{ op := "addRecord" }] }))
        none none
      = { id := "t1", operations := [{ op := "addRecord" }] } ∧
    buildQueryPlain "fresh-uuid"
        (.query { id := "q1", expressions := [{ op := "findRecords" }] })
        none none
      = { id := "q1", expressions := [{ op := "findRecords" }] } ∧
    buildTransform "fresh-uuid"
        (.plain (.transform { id := "t1", operations := [{ op := "addRecord" }] }))
        none (some "t2")
      = { id := "t2", operations := [{ op := "addRecord" }] } ∧
    buildTransform "fresh-uuid"
        (.plain (.transform { id := "t1", operations := [{ op := "addRecord" }] }))
        none (some "t2")
      ≠ { id := "t1", operations := [{ op := "addRecord" }] } ∧
    buildQueryPlain "fresh-uuid"
        (.query { id := "q1", expressions := [{ op := "findRecords" }] })
        none (some "q2")
      ≠ { id := "q1", expressions := [{ op := "findRecords" }] } := by
  have h := c8_build_returns_input_unchanged "fresh-uuid"
    { id := "t1", operations := [{ op := "addRecord" }] }
    { id := "q1", expressions := [{ op := "findRecords" }] }
    none (some "t2")
    (.op { op := "addRecord" }) [] (.expr { op := "findRecords" }) []
    (by decide) (by decide)
  refine ⟨h.1, h.2.1, ?_, ?_, ?_⟩
  · exact (h.2.2.1 (by decide)).1
  · exact h.2.2.2.1 "t2" (by decide) (by decide)
  · exact h.2.2.2.2.1 "q2" (by decide) (by decide)

/-- **C9**: `buildTransform(t, options)` with replacement options but no
replacement id returns a new transform keeping `t.operations`, taking the
replacement options, but with a freshly generated UUID as id: the original
`t.id` is discarded. -/
theorem c9_buildTransform_discards_id
    (freshId : String) (t : Transform) (opts : RequestOptions) :
    buildTransform freshId (.plain (.transform t)) (some opts) none =
      { operations := t.operations, options := some opts, id := freshId } := by
  simp [buildTransform, buildTransformPlain, idOrFresh, Option.orElse]

/-- Witness for C9: the result's id is the fresh UUID, not the original. -/
theorem c9_buildTransform_discards_id_witness :
    buildTransform "fresh-uuid"
        (.plain (.transform { id := "t1", operations := [{ op := "addRecord" }] }))
        (some { entries := [("a", "b")] }) none
      = { operations := [{ op := "addRecord" }],
          options := some { entries := [("a", "b")] },
          id := "fresh-uuid" } :=
  c9_buildTransform_discards_id "fresh-uuid"
    { id := "t1", operations := [{ op := "addRecord" }] }
    { entries := [("a", "b")] }

/-! ## Claim C10: RestStore remove keeps a deleted-flagged record cached -/

/-- **C10**: a successful `'remove'` transform does not delete the record
from `RestStore._localCache`: it stays retrievable via `retrieve(type, id)`
with `deleted = true`; when the record was not cached, a placeholder with
`deleted = true` is created and cached. -/
theorem c10_rest_remove_keeps_record
    (s s' : RestStoreState) (ty : String) (data rec : RestRecord)
    (freshId : String)
    (h : rsTransformRemove s ty data freshId = .ok (s', rec)) :
    rec.deleted = true ∧
    (∀ i, data.localId = some i → rsRetrieve s' ty i = some rec) ∧
    (data.localId = none → rsRetrieve s' ty freshId = some rec) ∧
    (∀ i r0, data.localId = some i → rsRetrieve s ty i = some r0 →
      rec = { r0 with deleted := true, version := r0.version + 1 }) ∧
    (∀ i, data.localId = some i → rsRetrieve s ty i = none →
      rec = { localId := some i, remoteId := none,
              deleted := true, version := 2 }) := by
  unfold rsTransformRemove at h
  split at h
  · exact absurd h (by simp)
  · split at h
    case h_1 i hi =>
      split at h
      case h_1 r0 hr0 =>
        simp only [Except.ok.injEq, Prod.mk.injEq] at h
        obtain ⟨hs', hrec⟩ := h
        subst hs' hrec
        refine ⟨rfl, ?_, ?_, ?_, ?_⟩
        · intro j hj
          rw [hi] at hj; cases hj
          simp [rsRetrieve, rcGet, rcSet]
        · intro hnone
          rw [hi] at hnone; cases hnone
        · intro j rj hj hrj
          rw [hi] at hj; cases hj
          rw [hr0] at hrj; cases hrj
          rfl
        · intro j hj hnone
          rw [hi] at hj; cases hj
          rw [hr0] at hnone; cases hnone
      case h_2 hr0 =>
        simp only [rsAddToCache, Except.ok.injEq, Prod.mk.injEq] at h
        obtain ⟨hs', hrec⟩ := h
        subst hs' hrec
        refine ⟨rfl, ?_, ?_, ?_, ?_⟩
        · intro j hj
          rw [hi] at hj; cases hj
          simp [rsRetrieve, rcGet, rcSet]
        · intro hnone
          rw [hi] at hnone; cases hnone
        · intro j rj hj hrj
          rw [hi] at hj; cases hj
          rw [hr0] at hrj; cases hrj
        · intro j hj _
          rw [hi] at hj; cases hj
          rfl
    case h_2 hi =>
      simp only [rsAddToCache, Except.ok.injEq, Prod.mk.injEq] at h
      obtain ⟨hs', hrec⟩ := h
      subst hs' hrec
      refine ⟨rfl, ?_, ?_, ?_, ?_⟩
      · intro j hj
        rw [hi] at hj; cases hj
      · intro _
        simp [rsRetrieve, rcGet, rcSet]
      · intro j rj hj
        rw [hi] at hj; cases hj
      · intro j hj
        rw [hi] at hj; cases hj

/-- Witness for C10: removing a cached record (remote id known) keeps it
retrievable with `deleted = true`; the theorem is applied at this state. -/
theorem c10_rest_remove_keeps_record_witness :
    rsTransformRemove restStoreBefore "planet" { localId := some "p1" } "gen1"
      = .ok (restStoreAfter, restDeletedRecord) ∧
    restDeletedRecord.deleted = true ∧
    rsRetrieve restStoreAfter "planet" "p1" = some restDeletedRecord := by
  have hrun : rsTransformRemove restStoreBefore "planet"
      { localId := some "p1" } "gen1" = .ok (restStoreAfter, restDeletedRecord) := by
    rfl
  have h := c10_rest_remove_keeps_record restStoreBefore restStoreAfter
    "planet" { localId := some "p1" } restDeletedRecord "gen1" hrun
  exact ⟨hrun, h.1, h.2.1 "p1" rfl⟩

/-! ## Claim C6: remote query timeout and fetch rejection -/

/-- **C6**: when the configured timeout elapses before response headers
arrive, the query rejects with a `NetworkError` whose description is exactly
`"No fetch response within <timeout>ms."`; a rejected fetch maps to a
`NetworkError` carrying the rejection reason. -/
theorem c6_fetch_timeout_network_error
    {R : Type} (t d : Nat) (resp : R) (tmo : Option Nat) (reason : String)
    (h : t < d) :
    fetchWithTimeout (some t) (.respondsAfter d resp)
      = .error (.networkError ("No fetch response within " ++ toString t ++ "ms.")) ∧
    fetchWithTimeout (R := R) tmo (.rejects reason)
      = .error (.networkError reason) := by
  constructor
  · simp [fetchWithTimeout, timeoutDescription, h]
  · cases tmo <;> simp [fetchWithTimeout]

/-- Witness for C6: timeout 10ms against a 20ms response delay produces the
literal description `"No fetch response within 10ms."`. -/
theorem c6_fetch_timeout_network_error_witness :
    fetchWithTimeout (some 10) (.respondsAfter 20 (0 : Nat))
      = .error (.networkError "No fetch response within 10ms.") ∧
    fetchWithTimeout (R := Nat) none (.rejects ":(")
      = .error (.networkError ":(") := by
  have h := c6_fetch_timeout_network_error (R := Nat) 10 20 0 none ":("
    (by decide)
  exact ⟨h.1, h.2⟩

/-! ## Claim C1: transform events precede resolution; log contains the id -/

/-- The event trace of `transformedRun` always ends with the resolution of
the caller's promise. -/
theorem transformedRun_last_resolve (n : Nat) (log : List String)
    (ts : List Transform) :
    (transformedRun n log ts).1.getLast? = some SourceEvent.resolve := by
  induction ts generalizing log with
  | nil => rfl
  | cons t ts ih =>
    by_cases hmem : t.id ∈ log
    · simp only [transformedRun, if_pos hmem]
      exact ih log
    · simp only [transformedRun, if_neg hmem]
      have h2 := ih (log ++ [t.id])
      have hne : (transformedRun n (log ++ [t.id]) ts).1 ≠ [] := by
        intro h0
        rw [h0] at h2
        exact absurd h2 (by simp)
      rw [List.getLast?_append_of_ne_nil _ hne]
      exact h2

/-- The transform log only grows during `transformedRun`. -/
theorem transformedRun_log_mono (n : Nat) (log : List String)
    (ts : List Transform) (x : String) (hx : x ∈ log) :
    x ∈ (transformedRun n log ts).2 := by
  induction ts generalizing log with
  | nil => exact hx
  | cons t ts ih =>
    by_cases hmem : t.id ∈ log
    · simp only [transformedRun, if_pos hmem]
      exact ih log hx
    · simp only [transformedRun, if_neg hmem]
      exact ih (log ++ [t.id]) (List.mem_append_left _ hx)

/-- **C1**: for every transform `t` applied by `transformed` (present in the
batch, not yet logged), when the returned promise resolves every registered
`transform` listener has already observed `t` — its observation event occurs
strictly before the final `resolve` event — and the transform log contains
`t.id`. -/
theorem c1_transform_events_before_resolve
    (n : Nat) (log : List String) (ts : List Transform) (t : Transform)
    (hmem : t ∈ ts) (hnew : t.id ∉ log) :
    t.id ∈ (transformedRun n log ts).2 ∧
    (transformedRun n log ts).1.getLast? = some SourceEvent.resolve ∧
    (∀ i, i < n →
      SourceEvent.transformEmit i t.id ∈ (transformedRun n log ts).1.dropLast) := by
  refine ⟨?_, transformedRun_last_resolve n log ts, ?_⟩
  · induction ts generalizing log with
    | nil => exact absurd hmem (by simp)
    | cons t' ts ih =>
      by_cases hid : t.id = t'.id
      · have hmem' : t'.id ∉ log := by rw [← hid]; exact hnew
        simp only [transformedRun, if_neg hmem']
        exact transformedRun_log_mono n (log ++ [t'.id]) ts t.id
          (by rw [hid]; exact List.mem_append_right _ (by simp))
      · have htl : t ∈ ts := by
          rcases List.mem_cons.mp hmem with h | h
          · exact absurd (congrArg Transform.id h) hid
          · exact h
        by_cases hmem' : t'.id ∈ log
        · simp only [transformedRun, if_pos hmem']
          exact ih log htl hnew
        · simp only [transformedRun, if_neg hmem']
          exact ih (log ++ [t'.id]) htl
            (by
              intro hc
              rcases List.mem_append.mp hc with h | h
              · exact hnew h
              · exact hid (by simpa using h))
  · intro i hi
    induction ts generalizing log with
    | nil => exact absurd hmem (by simp)
    | cons t' ts ih =>
      have hlast := transformedRun_last_resolve n (log ++ [t'.id]) ts
      have hne : (transformedRun n (log ++ [t'.id]) ts).1 ≠ [] := by
        intro h0
        rw [h0] at hlast
        exact absurd hlast (by simp)
      by_cases hid : t.id = t'.id
      · have hmem' : t'.id ∉ log := by rw [← hid]; exact hnew
        simp only [transformedRun, if_neg hmem']
        rw [List.dropLast_append_of_ne_nil _ hne]
        refine List.mem_append_left _ ?_
        rw [hid]
        exact List.mem_map.mpr ⟨i, List.mem_range.mpr hi, rfl⟩
      · have htl : t ∈ ts := by
          rcases List.mem_cons.mp hmem with h | h
          · exact absurd (congrArg Transform.id h) hid
          · exact h
        by_cases hmem' : t'.id ∈ log
        · simp only [transformedRun, if_pos hmem']
          exact ih log htl hnew
        · simp only [transformedRun, if_neg hmem']
          rw [List.dropLast_append_of_ne_nil _ hne]
          refine List.mem_append_right _ ?_
          exact ih (log ++ [t'.id]) htl
            (by
              intro hc
              rcases List.mem_append.mp hc with h | h
              · exact hnew h
              · exact hid (by simpa using h))

/-- Witness for C1: one listener, empty log, one applied transform; the
listener's observation occurs before the resolve event and the log contains
the id. -/
theorem c1_transform_events_before_resolve_witness :
    sampleTransform.id ∈ (transformedRun 1 [] [sampleTransform]).2 ∧
    SourceEvent.transformEmit 0 sampleTransform.id
      ∈ (transformedRun 1 [] [sampleTransform]).1.dropLast := by
  have h := c1_transform_events_before_resolve 1 [] [sampleTransform]
    sampleTransform (by simp) (by simp)
  exact ⟨h.1, h.2.2 0 (by decide)⟩

/-! ## Claim C2: a failing beforeQuery listener aborts the pipeline -/

/-- Extending a successfully completed listener prefix continues the run
from the prefix's final hints value. -/
theorem runBefore_append_ok {E H : Type}
    (xs ys : List (H → Except E H)) (h0 h : H)
    (hxs : runBefore xs h0 = .ok h) :
    runBefore (xs ++ ys) h0 = runBefore ys h := by
  induction xs generalizing h0 with
  | nil =>
    simp only [runBefore] at hxs
    cases hxs
    rfl
  | cons x xs ih =>
    cases hx : x h0 with
    | error e =>
      simp only [runBefore, hx] at hxs
      exact absurd hxs (by simp)
    | ok h1 =>
      simp only [runBefore, hx] at hxs
      simp only [List.cons_append, runBefore, hx]
      exact ih h1 hxs

/-- **C2**: if any registered `beforeQuery` listener fails (the listeners
before it having succeeded), then `_query` is never invoked, `queryFail` is
emitted, and the outer `query()` promise rejects with that listener's
error. -/
theorem c2_before_query_failure_aborts {E D : Type}
    (pre post : List (Hints D → Except E (Hints D)))
    (l : Hints D → Except E (Hints D))
    (perform : Hints D → Except E D) (e : E) (h : Hints D)
    (hpre : runBefore pre {} = .ok h) (hl : l h = .error e) :
    QueryEvent.performQuery ∉ (sourceQuery (pre ++ l :: post) perform).events ∧
    QueryEvent.queryFail ∈ (sourceQuery (pre ++ l :: post) perform).events ∧
    (sourceQuery (pre ++ l :: post) perform).result = .error e := by
  have hfail : runBefore (pre ++ l :: post) ({} : Hints D) = .error e := by
    rw [runBefore_append_ok pre (l :: post) {} h hpre]
    simp only [runBefore, hl]
  refine ⟨?_, ?_, ?_⟩
  · simp only [sourceQuery, hfail]
    intro hc
    rcases List.mem_append.mp hc with hm | hm
    · rcases List.mem_map.mp hm with ⟨i, _, hx⟩
      exact absurd hx (by simp)
    · exact absurd (List.mem_singleton.mp hm) (by simp)
  · simp only [sourceQuery, hfail]
    exact List.mem_append_right _ (by simp)
  · simp only [sourceQuery, hfail]

/-- Witness for C2: one succeeding listener followed by one rejecting with
`":("`; the pipeline fails with that error, `_query` is not invoked. -/
theorem c2_before_query_failure_aborts_witness :
    QueryEvent.performQuery ∉
      (sourceQuery (E := String) (D := List String)
        [fun h => .ok h, fun _ => .error ":("]
        (fun _ => .ok [])).events ∧
    QueryEvent.queryFail ∈
      (sourceQuery (E := String) (D := List String)
        [fun h => .ok h, fun _ => .error ":("]
        (fun _ => .ok [])).events ∧
    (sourceQuery (E := String) (D := List String)
        [fun h => .ok h, fun _ => .error ":("]
        (fun _ => .ok [])).result = .error ":(" := by
  have h := c2_before_query_failure_aborts (E := String) (D := List String)
    [fun h => .ok h] [] (fun _ => .error ":(") (fun _ => .ok [])
    ":(" {} rfl rfl
  exact h

/-! ## Claim C7: the hints object is shared and forwarded to `_query` -/

/-- If the head listener list is nonempty, the first invoked listener
observes the initial hints value. -/
theorem listenerInputsFrom_head {E H : Type}
    (ls : List (H → Except E H)) (h0 : H) (hne : ls ≠ []) :
    (listenerInputsFrom ls h0).head? = some h0 := by
  cases ls with
  | nil => exact absurd rfl hne
  | cons l rest => cases hx : l h0 <;> simp [listenerInputsFrom, hx]

/-- The invoked-listener inputs list is nonempty for a nonempty listener
list. -/
theorem listenerInputsFrom_ne_nil {E H : Type}
    (ls : List (H → Except E H)) (h0 : H) (hne : ls ≠ []) :
    listenerInputsFrom ls h0 ≠ [] := by
  cases ls with
  | nil => exact absurd rfl hne
  | cons l rest => cases hx : l h0 <;> simp [listenerInputsFrom, hx]

/-- When the whole run succeeds, every listener is invoked. -/
theorem listenerInputsFrom_length {E H : Type}
    (ls : List (H → Except E H)) (h0 h : H)
    (hok : runBefore ls h0 = .ok h) :
    (listenerInputsFrom ls h0).length = ls.length := by
  induction ls generalizing h0 with
  | nil => rfl
  | cons l rest ih =>
    cases hx : l h0 with
    | error e =>
      simp only [runBefore, hx] at hok
      exact absurd hok (by simp)
    | ok h1 =>
      simp only [runBefore, hx] at hok
      simp only [listenerInputsFrom, hx, List.length_cons, ih h1 hok]

/-- The shared-mutation chain: listener `i+1` observes exactly the hints
value that listener `i` resolved with. -/
theorem listenerInputs_chain {E H : Type}
    (ls : List (H → Except E H)) (h0 : H) (i : Nat)
    (li : H → Except E H) (a b : H)
    (hli : ls.get? i = some li)
    (ha : (listenerInputsFrom ls h0).get? i = some a)
    (hb : (listenerInputsFrom ls h0).get? (i + 1) = some b) :
    li a = .ok b := by
  induction ls generalizing h0 i with
  | nil => exact absurd hli (by simp)
  | cons l rest ih =>
    cases hx : l h0 with
    | error e =>
      simp only [listenerInputsFrom, hx] at ha hb
      cases i with
      | zero => exact absurd hb (by simp)
      | succ j => exact absurd ha (by simp)
    | ok h1 =>
      simp only [listenerInputsFrom, hx] at ha hb
      cases i with
      | zero =>
        simp only [List.get?] at hli ha hb
        cases hli
        cases ha
        have hrest : rest ≠ [] := by
          intro h0'
          subst h0'
          exact absurd hb (by simp [listenerInputsFrom])
        have := listenerInputsFrom_head rest h1 hrest
        rw [← List.get?_zero, hb] at this
        cases this
        exact hx
      | succ j =>
        simp only [List.get?] at hli ha hb
        exact ih h1 j hli ha hb

/-- When the run succeeds, the hints value it produces is the one the last
listener resolved with (or the initial value when there are no
listeners). -/
theorem runBefore_last {E H : Type}
    (ls : List (H → Except E H)) (h0 h : H)
    (hok : runBefore ls h0 = .ok h) :
    (ls = [] ∧ h = h0) ∨
    (∃ li a, ls.getLast? = some li ∧
      (listenerInputsFrom ls h0).getLast? = some a ∧ li a = .ok h) := by
  induction ls generalizing h0 with
  | nil =>
    simp only [runBefore] at hok
    cases hok
    exact Or.inl ⟨rfl, rfl⟩
  | cons l rest ih =>
    cases hx : l h0 with
    | error e =>
      simp only [runBefore, hx] at hok
      exact absurd hok (by simp)
    | ok h1 =>
      simp only [runBefore, hx] at hok
      rcases ih h1 hok with ⟨rfl, rfl⟩ | ⟨li, a, hli, ha, heq⟩
      · exact Or.inr ⟨l, h0, rfl, by simp [listenerInputsFrom, hx], hx⟩
      · refine Or.inr ⟨li, a, ?_, ?_, heq⟩
        · have hrest : rest ≠ [] := by
            intro h0'
            subst h0'
            exact absurd hli (by simp)
          show (([l] ++ rest).getLast? = some li)
          rw [List.getLast?_append_of_ne_nil _ hrest]
          exact hli
        · have hne : listenerInputsFrom rest h1 ≠ [] := by
            intro h0'
            rw [h0'] at ha
            exact absurd ha (by simp)
          simp only [listenerInputsFrom, hx]
          show (([h0] ++ listenerInputsFrom rest h1).getLast? = some a)
          rw [List.getLast?_append_of_ne_nil _ hne]
          exact ha

/-- **C7**: one shared, initially empty hints value flows through the whole
pipeline: the first `beforeQuery` listener observes the empty hints, each
later listener observes exactly what its predecessor resolved with, the
final value (the last listener's output) is forwarded to `_query`, and the
resolved result is whatever `_query` makes of it — so data pre-supplied by
a `beforeQuery` listener determines the result. -/
theorem c7_hints_shared_and_forwarded {E D : Type}
    (ls : List (Hints D → Except E (Hints D)))
    (perform : Hints D → Except E D) (h : Hints D)
    (hok : runBefore ls {} = .ok h) :
    (sourceQuery ls perform).performInput = some h ∧
    (sourceQuery ls perform).result = perform h ∧
    (sourceQuery ls perform).listenerInputs = listenerInputsFrom ls {} ∧
    (ls ≠ [] → (sourceQuery ls perform).listenerInputs.head? = some {}) ∧
    (∀ i li a b, ls.get? i = some li →
      (sourceQuery ls perform).listenerInputs.get? i = some a →
      (sourceQuery ls perform).listenerInputs.get? (i + 1) = some b →
      li a = .ok b) ∧
    (ls = [] ∧ h = {} ∨
      ∃ li a, ls.getLast? = some li ∧
        (sourceQuery ls perform).listenerInputs.getLast? = some a ∧
        li a = .ok h) := by
  have hq : ∀ (P : QueryRun E D (Hints D) → Prop),
      P { events := (List.range (listenerInputsFrom ls ({} : Hints D)).length).map
            .beforeQueryEmit ++ [.performQuery, .queryFail]
          listenerInputs := listenerInputsFrom ls {}
          performInput := some h
          result := perform h } →
      P { events := (List.range (listenerInputsFrom ls ({} : Hints D)).length).map
            .beforeQueryEmit ++ [.performQuery, .querySuccess]
          listenerInputs := listenerInputsFrom ls {}
          performInput := some h
          result := perform h } →
      P (sourceQuery ls perform) := by
    intro P h1 h2
    unfold sourceQuery
    rw [hok]
    cases hp : perform h
    · simpa [hp] using h1
    · simpa [hp] using h2
  refine ⟨?_, ?_, ?_, ?_, ?_, ?_⟩
  · exact hq (fun r => r.performInput = some h) rfl rfl
  · exact hq (fun r => r.result = perform h) rfl rfl
  · exact hq (fun r => r.listenerInputs = listenerInputsFrom ls {}) rfl rfl
  · intro hne
    have hh := listenerInputsFrom_head (E := E) ls {} hne
    exact hq (fun r => r.listenerInputs.head? = some {}) hh hh
  · intro i li a b hli hai hbi
    have hl : (sourceQuery ls perform).listenerInputs = listenerInputsFrom ls {} :=
      hq (fun r => r.listenerInputs = listenerInputsFrom ls {}) rfl rfl
    rw [hl] at hai hbi
    exact listenerInputs_chain ls {} i li a b hli hai hbi
  · have hl : (sourceQuery ls perform).listenerInputs = listenerInputsFrom ls {} :=
      hq (fun r => r.listenerInputs = listenerInputsFrom ls {}) rfl rfl
    rw [hl]
    exact runBefore_last ls {} h hok

/-- Witness for C7: a first listener pre-supplies data on the hints, a
second passes them on; `_query` resolves with the hinted data, which the
caller receives. -/
theorem c7_hints_shared_and_forwarded_witness :
    (sourceQuery (E := String) (D := List String)
        [fun _ => .ok { data := some ["venus", "mars"] }, fun h => .ok h]
        (fun h => match h.data with
          | some d => .ok d
          | none => .error "no data")).performInput
      = some { data := some ["venus", "mars"] } ∧
    (sourceQuery (E := String) (D := List String)
        [fun _ => .ok { data := some ["venus", "mars"] }, fun h => .ok h]
        (fun h => match h.data with
          | some d => .ok d
          | none => .error "no data")).result
      = .ok ["venus", "mars"] ∧
    (sourceQuery (E := String) (D := List String)
        [fun _ => .ok { data := some ["venus", "mars"] }, fun h => .ok h]
        (fun h => match h.data with
          | some d => .ok d
          | none => .error "no data")).listenerInputs.head?
      = some { data := none } := by
  have h := c7_hints_shared_and_forwarded (E := String) (D := List String)
    [fun _ => .ok { data := some ["venus", "mars"] }, fun h => .ok h]
    (fun h => match h.data with
      | some d => .ok d
      | none => .error "no data")
    { data := some ["venus", "mars"] } rfl
  exact ⟨h.1, h.2.1, h.2.2.2.1 (by simp)⟩

/-! ## Claim C3: findRecord raises; a list of identities silently skips -/

/-- `filterMap` keeps the order of the source list: the image of the result
is a sublist of the pointwise image. -/
theorem filterMap_map_some_sublist {α β : Type} (f : α → Option β) :
    ∀ l : List α, ((l.filterMap f).map some).Sublist (l.map f)
  | [] => List.Sublist.slnil
  | a :: l => by
    cases hf : f a with
    | none =>
      simp only [List.filterMap_cons, hf, List.map_cons]
      exact (filterMap_map_some_sublist f l).cons _
    | some b =>
      simp only [List.filterMap_cons, hf, List.map_cons]
      exact (filterMap_map_some_sublist f l).cons₂ _

/-- **C3**: a cache `findRecord` on an identity absent from the store raises
`RecordNotFound` (rejecting the query); `findRecords` over a list of
identities returns exactly the records whose identities exist, in list
order, silently skipping missing identities. -/
theorem c3_find_record_missing_and_identities
    (c : Cache) (i : RecordIdentity) (ids : List RecordIdentity) :
    (lookupRecord c i = none →
      findRecord c i = .error (.recordNotFound i.type i.id)) ∧
    (∀ r, lookupRecord c i = some r → findRecord c i = .ok r) ∧
    (∀ r, r ∈ findRecordsByIdentities c ids ↔
      ∃ j ∈ ids, lookupRecord c j = some r) ∧
    ((findRecordsByIdentities c ids).map some).Sublist
      (ids.map (lookupRecord c)) := by
  refine ⟨?_, ?_, ?_, ?_⟩
  · intro h
    simp [findRecord, h]
  · intro r h
    simp [findRecord, h]
  · intro r
    simp [findRecordsByIdentities, List.mem_filterMap]
  · exact filterMap_map_some_sublist (lookupRecord c) ids

/-- Witness for C3 on the test cache: the missing identity `FAKE` raises
`RecordNotFound`, and a list query returns exactly the present records
(jupiter and venus), skipping `FAKE`. -/
theorem c3_find_record_missing_and_identities_witness :
    lookupRecord sampleCache ⟨"planet", "FAKE"⟩ = none ∧
    findRecord sampleCache ⟨"planet", "FAKE"⟩
      = .error (.recordNotFound "planet" "FAKE") ∧
    (jupiterRec ∈ findRecordsByIdentities sampleCache
      [⟨"planet", "jupiter"⟩, ⟨"planet", "venus"⟩, ⟨"planet", "FAKE"⟩]) ∧
    findRecordsByIdentities sampleCache
      [⟨"planet", "jupiter"⟩, ⟨"planet", "venus"⟩, ⟨"planet", "FAKE"⟩]
      = [jupiterRec, venusRec] := by
  have h := c3_find_record_missing_and_identities sampleCache
    ⟨"planet", "FAKE"⟩
    [⟨"planet", "jupiter"⟩, ⟨"planet", "venus"⟩, ⟨"planet", "FAKE"⟩]
  refine ⟨by decide, h.1 (by decide), ?_, by decide⟩
  exact (h.2.2.1 jupiterRec).mpr ⟨⟨"planet", "jupiter"⟩, by decide, by decide⟩

/-! ## Claim C4: findRelatedRecords null-safety -/

/-- **C4**: `findRelatedRecords(x, r)` returns `[]` (it does not throw) when
`x` is present but carries no link for `r`; it raises `RecordNotFound` when
`x` is absent from the cache. -/
theorem c4_find_related_records_null_safety
    (c : Cache) (x : RecordIdentity) (rel : String) :
    (∀ r, lookupRecord c x = some r → r.relData rel = none →
      findRelatedRecords c x rel = .ok []) ∧
    (lookupRecord c x = none →
      findRelatedRecords c x rel = .error (.recordNotFound x.type x.id)) := by
  constructor
  · intro r hr hrel
    simp [findRelatedRecords, hr, hrel]
  · intro h
    simp [findRelatedRecords, h]

/-- Witness for C4: jupiter without a `moons` link yields `[]`; a missing
jupiter yields `RecordNotFound`. -/
theorem c4_find_related_records_null_safety_witness :
    findRelatedRecords [jupiterBare] ⟨"planet", "jupiter"⟩ "moons" = .ok [] ∧
    findRelatedRecords ([] : Cache) ⟨"planet", "jupiter"⟩ "moons"
      = .error (.recordNotFound "planet" "jupiter") := by
  constructor
  · exact (c4_find_related_records_null_safety [jupiterBare]
      ⟨"planet", "jupiter"⟩ "moons").1 jupiterBare (by decide) (by decide)
  · exact (c4_find_related_records_null_safety ([] : Cache)
      ⟨"planet", "jupiter"⟩ "moons").2 (by decide)

/-! ## Claim C5: sort semantics — comparator lemmas -/

/-- `cmpo` answers `lt` exactly on strictly smaller inputs. -/
theorem cmpo_lt_iff {α : Type} [LinearOrder α] (x y : α) :
    cmpo x y = .lt ↔ x < y := by
  unfold cmpo
  split_ifs with h1 h2 <;> simp_all

/-- `cmpo` answers `eq` exactly on equal inputs. -/
theorem cmpo_eq_iff {α : Type} [LinearOrder α] (x y : α) :
    cmpo x y = .eq ↔ x = y := by
  unfold cmpo
  split_ifs with h1 h2
  · exact iff_of_false (by simp) (ne_of_lt h1)
  · exact iff_of_true rfl h2
  · exact iff_of_false (by simp) h2

/-- `cmpo` answers `gt` exactly on strictly larger inputs. -/
theorem cmpo_gt_iff {α : Type} [LinearOrder α] (x y : α) :
    cmpo x y = .gt ↔ y < x := by
  unfold cmpo
  split_ifs with h1 h2
  · exact iff_of_false (by simp) (lt_asymm h1)
  · exact iff_of_false (by simp) (by rw [h2]; exact lt_irrefl y)
  · exact iff_of_true rfl (lt_of_le_of_ne (not_lt.mp h1) (Ne.symm h2))

/-- Swapping the arguments of `cmpo` swaps the answer. -/
theorem cmpo_swap {α : Type} [LinearOrder α] (x y : α) :
    cmpo x y = (cmpo y x).swap := by
  rcases lt_trichotomy x y with h | h | h
  · rw [(cmpo_lt_iff x y).mpr h, (cmpo_gt_iff y x).mpr h]; rfl
  · rw [(cmpo_eq_iff x y).mpr h, (cmpo_eq_iff y x).mpr h.symm]; rfl
  · rw [(cmpo_gt_iff x y).mpr h, (cmpo_lt_iff y x).mpr h]; rfl

/-- Swapping the arguments of `cmpVal` swaps the answer. -/
theorem cmpVal_swap (a b : Value) : cmpVal a b = (cmpVal b a).swap := by
  cases a <;> cases b <;> simp only [cmpVal] <;> exact cmpo_swap _ _

/-- `cmpVal` answers `eq` exactly on equal values. -/
theorem cmpVal_eq_iff (a b : Value) : cmpVal a b = .eq ↔ a = b := by
  cases a <;> cases b <;> simp [cmpVal, cmpo_eq_iff, Value.rank]

/-- `cmpVal`-strictly-below is transitive. -/
theorem cmpVal_lt_trans {a b c : Value} (h1 : cmpVal a b = .lt)
    (h2 : cmpVal b c = .lt) : cmpVal a c = .lt := by
  cases a <;> cases b <;> cases c <;>
    simp only [cmpVal, cmpo_lt_iff, Value.rank] at h1 h2 ⊢ <;>
    first
    | exact lt_trans h1 h2
    | omega

/-- Swapping the arguments of a key comparison swaps the answer. -/
theorem keyCmpVal_swap (o : SortOrder) (x y : Option Value) :
    keyCmpVal o x y = (keyCmpVal o y x).swap := by
  cases o <;> cases x <;> cases y <;> simp only [keyCmpVal] <;>
    first
    | rfl
    | exact cmpVal_swap _ _

/-- Key comparisons are transitive at `lt`. -/
theorem keyCmpVal_lt_trans (o : SortOrder) {x y z : Option Value}
    (h1 : keyCmpVal o x y = .lt) (h2 : keyCmpVal o y z = .lt) :
    keyCmpVal o x z = .lt := by
  cases o <;> cases x <;> cases y <;> cases z <;>
    simp only [keyCmpVal] at h1 h2 ⊢ <;>
    first
    | rfl
    | exact cmpVal_lt_trans h1 h2
    | exact cmpVal_lt_trans h2 h1
    | simp at h1
    | simp at h2

/-- Key comparisons are transitive at `eq`. -/
theorem keyCmpVal_eq_trans (o : SortOrder) {x y z : Option Value}
    (h1 : keyCmpVal o x y = .eq) (h2 : keyCmpVal o y z = .eq) :
    keyCmpVal o x z = .eq := by
  cases o <;> cases x <;> cases y <;> cases z <;>
    simp only [keyCmpVal] at h1 h2 ⊢ <;>
    first
    | rfl
    | (rw [cmpVal_eq_iff] at h1; subst h1; exact h2)
    | (rw [cmpVal_eq_iff] at h2; subst h2; exact h1)
    | simp at h1
    | simp at h2

/-- A key `lt` followed by a key tie stays `lt`. -/
theorem keyCmpVal_lt_eq_trans (o : SortOrder) {x y z : Option Value}
    (h1 : keyCmpVal o x y = .lt) (h2 : keyCmpVal o y z = .eq) :
    keyCmpVal o x z = .lt := by
  cases o <;> cases x <;> cases y <;> cases z <;>
    simp only [keyCmpVal] at h1 h2 ⊢ <;>
    first
    | rfl
    | (rw [cmpVal_eq_iff] at h2; subst h2; exact h1)
    | simp at h1
    | simp at h2

/-- A key tie followed by a key `lt` stays `lt`. -/
theorem keyCmpVal_eq_lt_trans (o : SortOrder) {x y z : Option Value}
    (h1 : keyCmpVal o x y = .eq) (h2 : keyCmpVal o y z = .lt) :
    keyCmpVal o x z = .lt := by
  cases o <;> cases x <;> cases y <;> cases z <;>
    simp only [keyCmpVal] at h1 h2 ⊢ <;>
    first
    | rfl
    | (rw [cmpVal_eq_iff] at h1; subst h1; exact h2)
    | simp at h1
    | simp at h2

/-- `keyCmp` restates `keyCmpVal` on the records' attribute values. -/
theorem keyCmp_swap (s : SortSpecifier) (a b : Record) :
    keyCmp s a b = (keyCmp s b a).swap :=
  keyCmpVal_swap s.order _ _

/-- `keyCmp` is transitive at `lt`. -/
theorem keyCmp_lt_trans (s : SortSpecifier) {a b c : Record}
    (h1 : keyCmp s a b = .lt) (h2 : keyCmp s b c = .lt) :
    keyCmp s a c = .lt :=
  keyCmpVal_lt_trans s.order h1 h2

/-- `keyCmp` is transitive at `eq`. -/
theorem keyCmp_eq_trans (s : SortSpecifier) {a b c : Record}
    (h1 : keyCmp s a b = .eq) (h2 : keyCmp s b c = .eq) :
    keyCmp s a c = .eq :=
  keyCmpVal_eq_trans s.order h1 h2

/-- `keyCmp` keeps `lt` across a trailing tie. -/
theorem keyCmp_lt_eq_trans (s : SortSpecifier) {a b c : Record}
    (h1 : keyCmp s a b = .lt) (h2 : keyCmp s b c = .eq) :
    keyCmp s a c = .lt :=
  keyCmpVal_lt_eq_trans s.order h1 h2

/-- `keyCmp` keeps `lt` across a leading tie. -/
theorem keyCmp_eq_lt_trans (s : SortSpecifier) {a b c : Record}
    (h1 : keyCmp s a b = .eq) (h2 : keyCmp s b c = .lt) :
    keyCmp s a c = .lt :=
  keyCmpVal_eq_lt_trans s.order h1 h2

/-- Swapping the records swaps the multi-key comparison. -/
theorem cmpRecords_swap (specs : List SortSpecifier) (a b : Record) :
    cmpRecords specs a b = (cmpRecords specs b a).swap := by
  induction specs with
  | nil => rfl
  | cons s rest ih =>
    have hs : keyCmp s a b = (keyCmp s b a).swap := keyCmpVal_swap _ _ _
    cases hk : keyCmp s b a with
    | lt =>
      rw [hk] at hs
      simp only [cmpRecords, hs, hk]
      rfl
    | eq =>
      rw [hk] at hs
      simp only [cmpRecords, hs, hk]
      exact ih
    | gt =>
      rw [hk] at hs
      simp only [cmpRecords, hs, hk]
      rfl

/-- Multi-key comparison is transitive at `lt`. -/
theorem cmpRecords_lt_trans (specs : List SortSpecifier) {a b c : Record}
    (h1 : cmpRecords specs a b = .lt) (h2 : cmpRecords specs b c = .lt) :
    cmpRecords specs a c = .lt := by
  induction specs with
  | nil => simp [cmpRecords] at h1
  | cons s rest ih =>
    cases hk1 : keyCmp s a b <;> cases hk2 : keyCmp s b c <;>
      simp only [cmpRecords, hk1, hk2] at h1 h2 ⊢ <;>
      first
      | rw [keyCmp_lt_trans s hk1 hk2]
      | rw [keyCmp_lt_eq_trans s hk1 hk2]
      | rw [keyCmp_eq_lt_trans s hk1 hk2]
      | (rw [keyCmp_eq_trans s hk1 hk2]; exact ih h1 h2)
      | simp at h1
      | simp at h2

/-- Multi-key comparison is transitive at `eq`. -/
theorem cmpRecords_eq_trans (specs : List SortSpecifier) {a b c : Record}
    (h1 : cmpRecords specs a b = .eq) (h2 : cmpRecords specs b c = .eq) :
    cmpRecords specs a c = .eq := by
  induction specs with
  | nil => rfl
  | cons s rest ih =>
    cases hk1 : keyCmp s a b <;> cases hk2 : keyCmp s b c <;>
      simp only [cmpRecords, hk1, hk2] at h1 h2 ⊢ <;>
      first
      | (rw [keyCmp_eq_trans s hk1 hk2]; exact ih h1 h2)
      | simp at h1
      | simp at h2

/-- A record `lt` followed by a full tie stays `lt`. -/
theorem cmpRecords_lt_eq_trans (specs : List SortSpecifier) {a b c : Record}
    (h1 : cmpRecords specs a b = .lt) (h2 : cmpRecords specs b c = .eq) :
    cmpRecords specs a c = .lt := by
  induction specs with
  | nil => simp [cmpRecords] at h1
  | cons s rest ih =>
    cases hk1 : keyCmp s a b <;> cases hk2 : keyCmp s b c <;>
      simp only [cmpRecords, hk1, hk2] at h1 h2 ⊢ <;>
      first
      | rw [keyCmp_lt_eq_trans s hk1 hk2]
      | (rw [keyCmp_eq_trans s hk1 hk2]; exact ih h1 h2)
      | simp at h1
      | simp at h2

/-- A full tie followed by a record `lt` stays `lt`. -/
theorem cmpRecords_eq_lt_trans (specs : List SortSpecifier) {a b c : Record}
    (h1 : cmpRecords specs a b = .eq) (h2 : cmpRecords specs b c = .lt) :
    cmpRecords specs a c = .lt := by
  induction specs with
  | nil => simp [cmpRecords] at h2
  | cons s rest ih =>
    cases hk1 : keyCmp s a b <;> cases hk2 : keyCmp s b c <;>
      simp only [cmpRecords, hk1, hk2] at h1 h2 ⊢ <;>
      first
      | rw [keyCmp_eq_lt_trans s hk1 hk2]
      | (rw [keyCmp_eq_trans s hk1 hk2]; exact ih h1 h2)
      | simp at h1
      | simp at h2

/-! ## Claim C5: sort semantics — the sort relation -/

/-- The sort relation is total. -/
instance recordLe_total (specs : List SortSpecifier) :
    IsTotal (Nat × Record) (recordLe specs) where
  total := by
    intro x y
    cases hk : cmpRecords specs x.2 y.2 with
    | lt => exact Or.inl (Or.inl hk)
    | eq =>
      have hyx : cmpRecords specs y.2 x.2 = .eq := by
        rw [cmpRecords_swap specs y.2 x.2, hk]; rfl
      rcases Nat.le_total x.1 y.1 with h | h
      · exact Or.inl (Or.inr ⟨hk, h⟩)
      · exact Or.inr (Or.inr ⟨hyx, h⟩)
    | gt =>
      have hyx : cmpRecords specs y.2 x.2 = .lt := by
        rw [cmpRecords_swap specs y.2 x.2, hk]; rfl
      exact Or.inr (Or.inl hyx)

/-- The sort relation is transitive. -/
instance recordLe_trans (specs : List SortSpecifier) :
    IsTrans (Nat × Record) (recordLe specs) where
  trans := by
    intro x y z hxy hyz
    rcases hxy with h1 | ⟨h1, hi1⟩
    · rcases hyz with h2 | ⟨h2, _⟩
      · exact Or.inl (cmpRecords_lt_trans specs h1 h2)
      · exact Or.inl (cmpRecords_lt_eq_trans specs h1 h2)
    · rcases hyz with h2 | ⟨h2, hi2⟩
      · exact Or.inl (cmpRecords_eq_lt_trans specs h1 h2)
      · exact Or.inr ⟨cmpRecords_eq_trans specs h1 h2, Nat.le_trans hi1 hi2⟩

/-- Mutually related elements are full-key ties with equal positions. -/
theorem recordLe_antisymm_fst (specs : List SortSpecifier)
    {x y : Nat × Record} (hxy : recordLe specs x y) (hyx : recordLe specs y x) :
    cmpRecords specs x.2 y.2 = .eq ∧ x.1 = y.1 := by
  rcases hxy with h1 | ⟨h1, hi1⟩
  · rcases hyx with h2 | ⟨h2, _⟩
    · rw [cmpRecords_swap specs x.2 y.2, h2] at h1
      exact absurd h1 (by decide)
    · rw [cmpRecords_swap specs x.2 y.2, h2] at h1
      exact absurd h1 (by decide)
  · rcases hyx with h2 | ⟨h2, hi2⟩
    · rw [cmpRecords_swap specs y.2 x.2, h1] at h2
      exact absurd h2 (by decide)
    · exact ⟨h1, Nat.le_antisymm hi1 hi2⟩

/-- Two sorted lists that are permutations of one another and whose first
components are duplicate-free are equal.  This is antisymmetry of the sort
relation made usable: mutually related pairs share their position tag. -/
theorem sorted_perm_nodup_fst_eq (specs : List SortSpecifier) :
    ∀ (l₁ l₂ : List (Nat × Record)), l₁.Perm l₂ →
      List.Sorted (recordLe specs) l₁ → List.Sorted (recordLe specs) l₂ →
      (l₁.map Prod.fst).Nodup → l₁ = l₂ := by
  intro l₁
  induction l₁ with
  | nil =>
    intro l₂ hp _ _ _
    exact hp.nil_eq
  | cons a t ih =>
    intro l₂ hp hs1 hs2 hn
    cases l₂ with
    | nil => exact absurd hp.symm.nil_eq (by simp)
    | cons b t₂ =>
      have hab : a = b := by
        by_contra hne
        have hb1 : b ∈ a :: t := hp.symm.subset (List.mem_cons_self b t₂)
        have hbt : b ∈ t := by
          rcases List.mem_cons.mp hb1 with h | h
          · exact absurd h.symm hne
          · exact h
        have ha1 : a ∈ b :: t₂ := hp.subset (List.mem_cons_self a t)
        have hat2 : a ∈ t₂ := by
          rcases List.mem_cons.mp ha1 with h | h
          · exact absurd h hne
          · exact h
        have h1 : recordLe specs a b := List.rel_of_sorted_cons hs1 b hbt
        have h2 : recordLe specs b a := List.rel_of_sorted_cons hs2 a hat2
        have hfst : a.1 = b.1 := (recordLe_antisymm_fst specs h1 h2).2
        have hmem : a.1 ∈ t.map Prod.fst := by
          rw [hfst]
          exact List.mem_map_of_mem Prod.fst hbt
        have hnot : a.1 ∉ t.map Prod.fst := by
          rw [List.map_cons] at hn
          exact (List.nodup_cons.mp hn).1
        exact hnot hmem
      subst hab
      have hperm : t.Perm t₂ := hp.cons_inv
      have htail : t = t₂ := by
        rw [List.map_cons] at hn
        exact ih t₂ hperm hs1.of_cons hs2.of_cons (List.nodup_cons.mp hn).2
      rw [htail]

/-! ## Claim C5: sort semantics — stability and the main theorem -/

/-- A present first-key value sorts before a missing one. -/
theorem keyCmpVal_none_some (o : SortOrder) (v : Value) :
    keyCmpVal o none (some v) = .gt := by
  cases o <;> rfl

/-- `==` answers on `Ordering` coincide with equality. -/
theorem ordering_beq_eq {a : Ordering} (h : (a == Ordering.eq) = true) :
    a = Ordering.eq := by
  cases a <;> first | rfl | exact absurd h (by decide)

/-- Full-key ties keep their input order: filtering the sorted output to any
tie class reproduces the input restricted to that class. -/
theorem sortRecords_stable (specs : List SortSpecifier) (rs : List Record)
    (r0 : Record) :
    (sortRecords specs rs).filter (fun x => cmpRecords specs x r0 == .eq)
      = rs.filter (fun x => cmpRecords specs x r0 == .eq) := by
  have hperm : (rs.enum.insertionSort (recordLe specs)).Perm rs.enum :=
    List.perm_insertionSort _ _
  have hsorted : List.Sorted (recordLe specs)
      (rs.enum.insertionSort (recordLe specs)) :=
    List.sorted_insertionSort _ _
  have h1 : List.Sorted (recordLe specs)
      ((rs.enum.insertionSort (recordLe specs)).filter
        (fun x => cmpRecords specs x.2 r0 == .eq)) :=
    hsorted.sublist (List.filter_sublist _)
  have henum : (rs.enum).Pairwise (fun x y : Nat × Record => x.1 < y.1) := by
    have h := List.pairwise_lt_range rs.length
    rw [← List.enum_map_fst rs] at h
    exact (List.pairwise_map).mp h
  have h2 : List.Sorted (recordLe specs)
      ((rs.enum).filter (fun x => cmpRecords specs x.2 r0 == .eq)) := by
    have hpw : ((rs.enum).filter
        (fun x => cmpRecords specs x.2 r0 == .eq)).Pairwise
        (fun x y : Nat × Record => x.1 < y.1) :=
      henum.sublist (List.filter_sublist _)
    refine List.Pairwise.imp_of_mem ?_ hpw
    intro a b ha hb hlt
    have hqa : cmpRecords specs a.2 r0 = .eq :=
      ordering_beq_eq (List.mem_filter.mp ha).2
    have hqb : cmpRecords specs b.2 r0 = .eq :=
      ordering_beq_eq (List.mem_filter.mp hb).2
    have hr0b : cmpRecords specs r0 b.2 = .eq := by
      rw [cmpRecords_swap specs r0 b.2, hqb]; rfl
    exact Or.inr ⟨cmpRecords_eq_trans specs hqa hr0b, Nat.le_of_lt hlt⟩
  have h3 : ((rs.enum.insertionSort (recordLe specs)).filter
      (fun x => cmpRecords specs x.2 r0 == .eq)).Perm
      ((rs.enum).filter (fun x => cmpRecords specs x.2 r0 == .eq)) :=
    hperm.filter _
  have h4 : (((rs.enum.insertionSort (recordLe specs)).filter
      (fun x => cmpRecords specs x.2 r0 == .eq)).map Prod.fst).Nodup := by
    have hnodup : ((rs.enum.insertionSort (recordLe specs)).map
        Prod.fst).Nodup := by
      have hpm := hperm.map (Prod.fst)
      rw [List.enum_map_fst] at hpm
      exact (hpm.nodup_iff).mpr (List.nodup_range _)
    exact hnodup.sublist ((List.filter_sublist _).map Prod.fst)
  have h5 := sorted_perm_nodup_fst_eq specs _ _ h3 h1 h2 h4
  have h5c : (rs.enum.insertionSort (recordLe specs)).filter
      ((fun x => cmpRecords specs x r0 == .eq) ∘ Prod.snd)
      = (rs.enum).filter ((fun x => cmpRecords specs x r0 == .eq) ∘ Prod.snd) :=
    h5
  unfold sortRecords
  rw [List.filter_map, h5c, ← List.filter_map, List.enum_map_snd]

/-- **C5**: for a query sorted by an attribute (in either direction, with
any later keys), every record lacking that attribute appears in the result
after every record that has it; ties on the first key are decided by the
later sort keys, and full-key ties keep their insertion order. -/
theorem c5_sort_missing_last_ties_stable (attr : String) (ord : SortOrder)
    (rest : List SortSpecifier) (rs : List Record) :
    (∀ i j (hi : i < (sortRecords (⟨attr, ord⟩ :: rest) rs).length)
        (hj : j < (sortRecords (⟨attr, ord⟩ :: rest) rs).length),
      ((sortRecords (⟨attr, ord⟩ :: rest) rs).get ⟨i, hi⟩).getAttr attr = none →
      (((sortRecords (⟨attr, ord⟩ :: rest) rs).get ⟨j, hj⟩).getAttr attr).isSome
        = true →
      j < i) ∧
    (∀ i j (hi : i < (sortRecords (⟨attr, ord⟩ :: rest) rs).length)
        (hj : j < (sortRecords (⟨attr, ord⟩ :: rest) rs).length),
      i < j →
      keyCmp ⟨attr, ord⟩ ((sortRecords (⟨attr, ord⟩ :: rest) rs).get ⟨i, hi⟩)
          ((sortRecords (⟨attr, ord⟩ :: rest) rs).get ⟨j, hj⟩) = .eq →
      cmpRecords rest ((sortRecords (⟨attr, ord⟩ :: rest) rs).get ⟨i, hi⟩)
          ((sortRecords (⟨attr, ord⟩ :: rest) rs).get ⟨j, hj⟩) ≠ .gt) ∧
    (∀ r0, (sortRecords (⟨attr, ord⟩ :: rest) rs).filter
        (fun x => cmpRecords (⟨attr, ord⟩ :: rest) x r0 == .eq)
      = rs.filter (fun x => cmpRecords (⟨attr, ord⟩ :: rest) x r0 == .eq)) := by
  have hsorted : List.Sorted (recordLe (⟨attr, ord⟩ :: rest))
      (rs.enum.insertionSort (recordLe (⟨attr, ord⟩ :: rest))) :=
    List.sorted_insertionSort _ _
  have hlen : (sortRecords (⟨attr, ord⟩ :: rest) rs).length
      = (rs.enum.insertionSort (recordLe (⟨attr, ord⟩ :: rest))).length := by
    unfold sortRecords
    exact List.length_map _ _
  have hget : ∀ (i : Nat)
      (hi : i < (sortRecords (⟨attr, ord⟩ :: rest) rs).length),
      (sortRecords (⟨attr, ord⟩ :: rest) rs).get ⟨i, hi⟩
        = ((rs.enum.insertionSort (recordLe (⟨attr, ord⟩ :: rest))).get
            ⟨i, by rw [← hlen]; exact hi⟩).2 := by
    intro i hi
    unfold sortRecords
    simp [List.get_eq_getElem, List.getElem_map]
  have hrel : ∀ (i j : Nat)
      (hi : i < (sortRecords (⟨attr, ord⟩ :: rest) rs).length)
      (hj : j < (sortRecords (⟨attr, ord⟩ :: rest) rs).length), i < j →
      recordLe (⟨attr, ord⟩ :: rest)
        ((rs.enum.insertionSort (recordLe (⟨attr, ord⟩ :: rest))).get
          ⟨i, by rw [← hlen]; exact hi⟩)
        ((rs.enum.insertionSort (recordLe (⟨attr, ord⟩ :: rest))).get
          ⟨j, by rw [← hlen]; exact hj⟩) := by
    intro i j hi hj hij
    exact hsorted.rel_get_of_lt hij
  refine ⟨?_, ?_, fun r0 => sortRecords_stable _ rs r0⟩
  · intro i j hi hj hnone hsome
    rcases Nat.lt_trichotomy j i with h | h | h
    · exact h
    · exfalso
      subst h
      rw [hnone] at hsome
      exact absurd hsome (by simp)
    · exfalso
      have hr := hrel i j hi hj h
      rw [hget i hi] at hnone
      rw [hget j hj] at hsome
      rcases Option.isSome_iff_exists.mp hsome with ⟨v, hv⟩
      have hkey : keyCmp ⟨attr, ord⟩
          ((rs.enum.insertionSort (recordLe (⟨attr, ord⟩ :: rest))).get
            ⟨i, by rw [← hlen]; exact hi⟩).2
          ((rs.enum.insertionSort (recordLe (⟨attr, ord⟩ :: rest))).get
            ⟨j, by rw [← hlen]; exact hj⟩).2 = .gt := by
        unfold keyCmp
        rw [show (⟨attr, ord⟩ : SortSpecifier).attr = attr from rfl]
        rw [hnone, hv]
        exact keyCmpVal_none_some _ v
      have hcmp : cmpRecords (⟨attr, ord⟩ :: rest)
          ((rs.enum.insertionSort (recordLe (⟨attr, ord⟩ :: rest))).get
            ⟨i, by rw [← hlen]; exact hi⟩).2
          ((rs.enum.insertionSort (recordLe (⟨attr, ord⟩ :: rest))).get
            ⟨j, by rw [← hlen]; exact hj⟩).2 = .gt := by
        simp only [cmpRecords, hkey]
      rcases hr with hlt | ⟨heq, _⟩
      · rw [hcmp] at hlt
        exact absurd hlt (by decide)
      · rw [hcmp] at heq
        exact absurd heq (by decide)
  · intro i j hi hj hij hkey
    have hr := hrel i j hi hj hij
    rw [hget i hi, hget j hj] at hkey ⊢
    rcases hr with hlt | ⟨heq, _⟩
    · intro hc
      simp only [cmpRecords, hkey] at hlt
      rw [hc] at hlt
      exact absurd hlt (by decide)
    · intro hc
      simp only [cmpRecords, hkey] at heq
      rw [hc] at heq
      exact absurd heq (by decide)

/-- Witness for C5, on the planets fixture sorted by `sequence`: jupiter
(which lacks the attribute) lands last in both directions, and the
venus/mars tie class keeps its insertion order; the theorem is applied at
those concrete positions. -/
theorem c5_sort_missing_last_ties_stable_witness :
    ((sortRecords [⟨"sequence", SortOrder.asc⟩] sortPlanets).get
        ⟨4, by decide⟩).getAttr "sequence" = none ∧
    (((sortRecords [⟨"sequence", SortOrder.asc⟩] sortPlanets).get
        ⟨0, by decide⟩).getAttr "sequence").isSome = true ∧
    (0 : Nat) < 4 ∧
    ((sortRecords [⟨"sequence", SortOrder.desc⟩] sortPlanets).get
        ⟨4, by decide⟩).getAttr "sequence" = none ∧
    (((sortRecords [⟨"sequence", SortOrder.desc⟩] sortPlanets).get
        ⟨0, by decide⟩).getAttr "sequence").isSome = true ∧
    (sortRecords [⟨"sequence", SortOrder.asc⟩] sortPlanets).filter
        (fun x => cmpRecords [⟨"sequence", SortOrder.asc⟩] x venusSeq == .eq)
      = sortPlanets.filter
        (fun x => cmpRecords [⟨"sequence", SortOrder.asc⟩] x venusSeq == .eq) := by
  refine ⟨by decide, by decide, ?_, by decide, by decide, ?_⟩
  · exact (c5_sort_missing_last_ties_stable "sequence" .asc [] sortPlanets).1
      4 0 (by decide) (by decide) (by decide) (by decide)
  · exact (c5_sort_missing_last_ties_stable "sequence" .asc [] sortPlanets).2.2
      venusSeq

end Orbit
